import Mathlib

/-!
Verification of the file-auto-organizer core against its specification.

The TypeScript sources are shallowly embedded:
* pure helpers (`computeSimilarity`, `findMostSimilarFile`, `chunkArray`,
  `updateKnownDirectories`, `scanDirs`, the batch-classification loop of
  `MainService.runOnce`) become Lean functions over `List`/`String`/`ℚ`/`Int`;
* the filesystem used by `FileMoveService` becomes an explicit state
  (`FS`: a finite map from path to byte content, plus a directory set)
  threaded through the move procedures, with transient errors
  (cross-device, busy, corrupted copy) injected by an explicit event
  schedule (`FsEv`), mirroring the spec's reading of the mover as a
  decision procedure over the outcome of each rename attempt;
* `fs.renameSync` reports `ENOENT` when the source is gone and `EISDIR`
  when the destination is an existing directory (both state-determined,
  checked before the injected-event schedule is consulted), and silently
  replaces an existing destination file, as POSIX `rename(2)` and Windows
  `MoveFileEx` with `REPLACE_EXISTING` both do — so the `EEXIST` dispatch
  kept from the source is unreachable;
* Node string/path library calls (`toLowerCase`, `path.basename`,
  `path.dirname`, `path.extname`, `path.join`, `path.relative`, `trim`,
  `Array.slice`) are modelled by structurally recursive functions over
  `List Char` so that every definition evaluates by kernel reduction;
* unbounded loops (`while (true)` in `generateUniqueTargetPath`, the
  recursive retries in `attemptMoveRecursive`/`unlinkWithRetryRecursive`,
  the `i += chunkSize` loop of `chunkArray`) take an explicit fuel
  argument and return `none` when the fuel runs out, so that
  non-termination of the source loop is observable as `none` for every
  fuel.
All functions keep the source names.
-/

/-! ### String and path helpers (models of JS / Node library calls) -/

/-- Model of `String.prototype.toLowerCase` (per-character lowering). -/
def jsLower (s : String) : List Char :=
  s.data.map Char.toLower

/-- Split a character list on `'/'` (always returns at least one segment). -/
def splitSegs : List Char → List (List Char)
  | [] => [[]]
  | c :: rest =>
    match splitSegs rest with
    | [] => [[]]
    | s :: ss => if c = '/' then [] :: s :: ss else (c :: s) :: ss

/-- Join segments back with `'/'`. -/
def joinSegs : List (List Char) → List Char
  | [] => []
  | [s] => s
  | s :: rest => s ++ '/' :: joinSegs rest

/-- Model of Node `path.basename(p)`: the last `/`-separated segment. -/
def jsBasename (p : String) : String :=
  String.mk ((splitSegs p.data).getLastD [])

/-- Model of Node `path.dirname(p)`. -/
def jsDirname (p : String) : String :=
  let segs := splitSegs p.data
  if segs.length ≤ 1 then "." else String.mk (joinSegs segs.dropLast)

/-- The character suffix starting at the last `'.'`, if any. -/
def afterLastDot? : List Char → Option (List Char)
  | [] => none
  | c :: rest =>
    match afterLastDot? rest with
    | some s => some s
    | none => if c = '.' then some (c :: rest) else none

/-- Model of Node `path.extname(p)`: extension of the basename, where a
leading dot does not start an extension. -/
def jsExtname (p : String) : String :=
  match (splitSegs p.data).getLastD [] with
  | [] => ""
  | _ :: rest =>
    match afterLastDot? rest with
    | none => ""
    | some s => String.mk s

/-- Model of Node `path.basename(p, ext)`: basename with the extension
suffix removed (when it is a proper suffix). -/
def jsBasenameExt (p ext : String) : String :=
  let b := (splitSegs p.data).getLastD []
  let e := ext.data
  if e ≠ [] ∧ b ≠ e ∧ b.drop (b.length - e.length) = e then
    String.mk (b.take (b.length - e.length))
  else String.mk b

/-- Model of `path.join(a, b)` for a non-empty directory part. -/
def pathJoin (a b : String) : String := a ++ "/" ++ b

/-- Whitespace test used by the model of `String.prototype.trim`. -/
def isJsWs (c : Char) : Bool := c = ' ' ∨ c = '\t' ∨ c = '\n' ∨ c = '\r'

/-- Model of `String.prototype.trim`. -/
def jsTrim (s : String) : String :=
  String.mk (((s.data.dropWhile isJsWs).reverse.dropWhile isJsWs).reverse)

/-! ### Similarity matcher (`MainService.computeSimilarity`,
`MainService.findMostSimilarFile`) -/

/-- Levenshtein distance with explicit fuel; with `fuel ≥ |a| + |b|` the
fuel is never exhausted, so `lev` below is the textbook recursion
implemented by the `fast-levenshtein` library. -/
def levF : Nat → List Char → List Char → Nat
  | _, [], ys => ys.length
  | _, x :: xs, [] => (x :: xs).length
  | 0, _ :: _, _ :: _ => 0
  | f + 1, x :: xs, y :: ys =>
    if x = y then levF f xs ys
    else 1 + min (levF f (x :: xs) ys) (min (levF f xs (y :: ys)) (levF f xs ys))

/-- `levenshtein.get a b` of the `fast-levenshtein` library. -/
def lev (a b : List Char) : Nat := levF (a.length + b.length) a b

/-- `MainService.computeSimilarity`:
`1 - levenshtein(lower a, lower b) / (max(a.length, b.length) || 1)`. -/
def computeSimilarity (a b : String) : ℚ :=
  let dist := lev (jsLower a) (jsLower b)
  let maxLen : ℕ := if max a.data.length b.data.length = 0 then 1
                    else max a.data.length b.data.length
  1 - (dist : ℚ) / (maxLen : ℚ)

/-- Result record of `MainService.findMostSimilarFile`; `bestScore = none`
encodes the initial `-Infinity`. -/
structure SimResult where
  bestRelPath : Option String
  bestDir : Option String
  bestScore : Option ℚ
  deriving Repr, DecidableEq

/-- The `for (const rel of knownFileRelPaths)` loop of
`findMostSimilarFile`: keep the strictly better score. -/
def findLoop (fileName : String) : List String → SimResult → SimResult
  | [], acc => acc
  | rel :: rest, acc =>
    let score := computeSimilarity fileName (jsBasename rel)
    let better : Bool :=
      match acc.bestScore with
      | none => true
      | some s => decide (s < score)
    findLoop fileName rest
      (if better then ⟨some rel, some (jsDirname rel), some score⟩ else acc)

/-- `MainService.findMostSimilarFile`. -/
def findMostSimilarFile (fileName : String) (known : List String) : SimResult :=
  findLoop fileName known ⟨none, none, none⟩

theorem levF_self (xs : List Char) : ∀ f, xs.length ≤ f → levF f xs xs = 0 := by
  induction xs with
  | nil => intro f _; cases f <;> rfl
  | cons x xs ih =>
    intro f hf
    cases f with
    | zero => simp at hf
    | succ f =>
      show levF (f + 1) (x :: xs) (x :: xs) = 0
      simp only [levF, if_pos rfl]
      exact ih f (by simpa using hf)

theorem lev_self (xs : List Char) : lev xs xs = 0 :=
  levF_self xs _ (by omega)

theorem computeSimilarity_le_one (a b : String) : computeSimilarity a b ≤ 1 := by
  unfold computeSimilarity
  have h1 : (0:ℚ) ≤ (lev (jsLower a) (jsLower b) : ℚ) := by positivity
  have h2 : (0:ℚ) ≤ ((if max a.data.length b.data.length = 0 then 1
      else max a.data.length b.data.length : ℕ) : ℚ) := by positivity
  have := div_nonneg h1 h2
  linarith

theorem computeSimilarity_eq_one (a b : String) (h : jsLower a = jsLower b) :
    computeSimilarity a b = 1 := by
  unfold computeSimilarity
  rw [h, lev_self]
  simp

theorem findLoop_cons_none (fileName r : String) (rest : List String)
    (rp rd : Option String) :
    findLoop fileName (r :: rest) ⟨rp, rd, none⟩ =
      findLoop fileName rest
        ⟨some r, some (jsDirname r),
          some (computeSimilarity fileName (jsBasename r))⟩ := rfl

theorem findLoop_cons_some (fileName r : String) (rest : List String)
    (rp rd : Option String) (s : ℚ) :
    findLoop fileName (r :: rest) ⟨rp, rd, some s⟩ =
      findLoop fileName rest
        (if s < computeSimilarity fileName (jsBasename r) then
          ⟨some r, some (jsDirname r),
            some (computeSimilarity fileName (jsBasename r))⟩
        else ⟨rp, rd, some s⟩) := by
  have h0 : findLoop fileName (r :: rest) ⟨rp, rd, some s⟩ =
      findLoop fileName rest
        (if decide (s < computeSimilarity fileName (jsBasename r)) then
          ⟨some r, some (jsDirname r),
            some (computeSimilarity fileName (jsBasename r))⟩
        else ⟨rp, rd, some s⟩) := rfl
  rw [h0]
  by_cases h : s < computeSimilarity fileName (jsBasename r)
  · rw [decide_eq_true h, if_pos h]
    rfl
  · rw [decide_eq_false h, if_neg h]
    rfl

theorem findLoop_keeps_one (fileName : String) :
    ∀ (rest : List String) (rp rd : Option String),
      (findLoop fileName rest ⟨rp, rd, some 1⟩).bestScore = some 1 := by
  intro rest
  induction rest with
  | nil => intro rp rd; rfl
  | cons r rest ih =>
    intro rp rd
    have hle := computeSimilarity_le_one fileName (jsBasename r)
    rw [findLoop_cons_some, if_neg (not_lt.mpr hle)]
    exact ih rp rd

theorem findLoop_finds_one (fileName : String) :
    ∀ (rest : List String) (acc : SimResult),
      (acc.bestScore = none ∨ ∃ s, acc.bestScore = some s ∧ s ≤ 1) →
      (∃ rel ∈ rest, computeSimilarity fileName (jsBasename rel) = 1) →
      (findLoop fileName rest acc).bestScore = some 1 := by
  intro rest
  induction rest with
  | nil => intro acc _ hmem; simp at hmem
  | cons r rest ih =>
    rintro ⟨rp, rd, bs⟩ hacc hmem
    by_cases hr : computeSimilarity fileName (jsBasename r) = 1
    · -- the head already scores 1: afterwards the accumulator holds score 1
      cases bs with
      | none =>
        rw [findLoop_cons_none, hr]
        exact findLoop_keeps_one fileName rest _ _
      | some s =>
        rcases hacc with h0 | ⟨s', hs', hs1⟩
        · exact absurd h0 (by simp)
        · have hss : s' = s := by simpa using hs'.symm
          subst hss
          by_cases hlt : s' < computeSimilarity fileName (jsBasename r)
          · rw [findLoop_cons_some, if_pos hlt, hr]
            exact findLoop_keeps_one fileName rest _ _
          · have hseq : s' = 1 := le_antisymm hs1 (by rw [← hr]; exact not_lt.mp hlt)
            subst hseq
            rw [findLoop_cons_some, if_neg hlt]
            exact findLoop_keeps_one fileName rest _ _
    · -- the witness is in the tail; the accumulator invariant is preserved
      have hmem' : ∃ rel ∈ rest, computeSimilarity fileName (jsBasename rel) = 1 := by
        rcases hmem with ⟨rel, hrel, h1⟩
        rcases List.mem_cons.mp hrel with rfl | htail
        · exact absurd h1 hr
        · exact ⟨rel, htail, h1⟩
      cases bs with
      | none =>
        rw [findLoop_cons_none]
        exact ih _ (Or.inr ⟨_, rfl, computeSimilarity_le_one _ _⟩) hmem'
      | some s =>
        rw [findLoop_cons_some]
        by_cases hlt : s < computeSimilarity fileName (jsBasename r)
        · rw [if_pos hlt]
          exact ih _ (Or.inr ⟨_, rfl, computeSimilarity_le_one _ _⟩) hmem'
        · rw [if_neg hlt]
          rcases hacc with h0 | ⟨s', hs', hs1⟩
          · exact absurd h0 (by simp)
          · have hss : s' = s := by simpa using hs'.symm
            subst hss
            exact ih _ (Or.inr ⟨s', rfl, hs1⟩) hmem'

/-- Claim C4: the similarity score equals
`1 - levenshtein(lower(a), lower(b)) / max(len(a), len(b) or 1)`, and for
any known file whose basename equals the incoming file name ignoring
case, `findMostSimilarFile` returns best score `1`. -/
theorem claim_C4_similarity :
    (∀ a b : String, computeSimilarity a b =
      1 - (lev (jsLower a) (jsLower b) : ℚ) /
        ((if max a.data.length b.data.length = 0 then 1
          else max a.data.length b.data.length : ℕ) : ℚ)) ∧
    (∀ (fileName : String) (known : List String) (rel : String),
      rel ∈ known → jsLower (jsBasename rel) = jsLower fileName →
      (findMostSimilarFile fileName known).bestScore = some 1) := by
  constructor
  · intro a b; rfl
  · intro fileName known rel hmem heq
    unfold findMostSimilarFile
    exact findLoop_finds_one fileName known ⟨none, none, none⟩ (Or.inl rfl)
      ⟨rel, hmem, computeSimilarity_eq_one _ _ (by rw [heq])⟩

/-- Witness for C4 at a concrete input: `report.txt` vs `Report.TXT`. -/
theorem claim_C4_similarity_witness :
    ("docs/report.txt" ∈ ["docs/report.txt"] ∧
      jsLower (jsBasename "docs/report.txt") = jsLower "Report.TXT") ∧
    (findMostSimilarFile "Report.TXT" ["docs/report.txt"]).bestScore = some 1 :=
  ⟨⟨by decide, by decide⟩,
    claim_C4_similarity.2 "Report.TXT" ["docs/report.txt"] "docs/report.txt"
      (by decide) (by decide)⟩

/-! ### Batch chunking (`MainService.chunkArray`) and the `ai.batch_size`
configuration merge -/

/-- Model of JS `Array.prototype.slice(start, stop)` with the usual
negative-index and clamping semantics. -/
def jsSlice {α : Type} (xs : List α) (start stop : Int) : List α :=
  let len : Int := xs.length
  let s := if start < 0 then max (len + start) 0 else min start len
  let e := if stop < 0 then max (len + stop) 0 else min stop len
  (xs.take e.toNat).drop s.toNat

/-- The loop `for (let i = 0; i < array.length; i += chunkSize)` of
`MainService.chunkArray`, with explicit fuel; `none` means the fuel ran
out while the loop condition still held. -/
def chunkLoop {α : Type} (xs : List α) (c : Int) : Nat → Int → Option (List (List α))
  | 0, i => if i < (xs.length : Int) then none else some []
  | fuel + 1, i =>
    if i < (xs.length : Int) then
      (chunkLoop xs c fuel (i + c)).map (fun rest => jsSlice xs i (i + c) :: rest)
    else some []

/-- `MainService.chunkArray(array, chunkSize)` run with the given fuel. -/
def chunkArray {α : Type} (xs : List α) (c : Int) (fuel : Nat) : Option (List (List α)) :=
  chunkLoop xs c fuel 0

/-- `mergeConfig` for the `ai` section: a loaded `ai.batch_size` value is
taken as-is, the default `5` applies only when it is absent.  No lower
bound is imposed. -/
def mergedAiBatchSize (loaded : Option Int) : Int :=
  match loaded with
  | some v => v
  | none => 5

theorem chunkLoop_total {α : Type} (xs : List α) (c : Int) (hc : 1 ≤ c) :
    ∀ (fuel : Nat) (i : Int), 0 ≤ i → (xs.length : Int) - i ≤ fuel * c →
      ∃ ch, chunkLoop xs c fuel i = some ch ∧
        ch.flatten = xs.drop i.toNat ∧ ∀ l ∈ ch, l.length ≤ c.toNat := by
  intro fuel
  induction fuel with
  | zero =>
    intro i hi hbound
    refine ⟨[], ?_, ?_, by simp⟩
    · have : ¬ i < (xs.length : Int) := by
        simp only [Nat.cast_zero, zero_mul] at hbound
        omega
      simp [chunkLoop, this]
    · have hlen : xs.length ≤ i.toNat := by omega
      simp [List.drop_eq_nil_of_le hlen]
  | succ fuel ih =>
    intro i hi hbound
    by_cases hcond : i < (xs.length : Int)
    · obtain ⟨ch, hch, hjoin, hlensub⟩ := ih (i + c) (by omega) (by
        push_cast at hbound ⊢
        nlinarith)
      have hslice : jsSlice xs i (i + c) =
          (xs.drop i.toNat).take ((min (i + c) (xs.length : Int)).toNat - i.toNat) := by
        simp only [jsSlice]
        rw [if_neg (by omega : ¬ i < 0), if_neg (by omega : ¬ i + c < 0)]
        rw [min_eq_left (le_of_lt hcond)]
        exact List.drop_take ..
      refine ⟨jsSlice xs i (i + c) :: ch, ?_, ?_, ?_⟩
      · simp [chunkLoop, hcond, hch]
      · by_cases hend : i + c ≤ (xs.length : Int)
        · have h1 : (min (i + c) (xs.length : Int)).toNat - i.toNat = c.toNat := by
            rw [min_eq_left hend]; omega
          have h2 : (i + c).toNat = i.toNat + c.toNat := by omega
          rw [List.flatten_cons, hslice, h1, hjoin, h2]
          exact List.drop_take_append_drop ..
        · -- last chunk: the slice is the whole remaining suffix
          have h2 : ch.flatten = [] := by
            rw [hjoin]
            exact List.drop_eq_nil_of_le (by omega)
          rw [List.flatten_cons, hslice, h2, List.append_nil]
          exact List.take_of_length_le (by simp; omega)
      · intro l hl
        rcases List.mem_cons.mp hl with rfl | htail
        · rw [hslice]
          have h1 : min (i + c) (xs.length : Int) ≤ i + c := min_le_left ..
          have h2 : (min (i + c) (xs.length : Int)).toNat ≤ (i + c).toNat :=
            Int.toNat_le_toNat h1
          simp only [List.length_take, List.length_drop]
          have h3 := Nat.min_le_left
            ((min (i + c) (xs.length : Int)).toNat - i.toNat) (xs.length - i.toNat)
          omega
        · exact hlensub l htail
    · exact ⟨[], by simp [chunkLoop, hcond], by
        have hlen : xs.length ≤ i.toNat := by omega
        simp [List.drop_eq_nil_of_le hlen], by simp⟩

theorem chunkLoop_diverges {α : Type} (xs : List α) (c : Int) (hc : c ≤ 0)
    (hne : xs ≠ []) : ∀ (fuel : Nat) (i : Int), i ≤ 0 →
      chunkLoop xs c fuel i = none := by
  have hlen : 1 ≤ (xs.length : Int) := by
    have := List.length_pos.mpr hne
    omega
  intro fuel
  induction fuel with
  | zero => intro i hi; simp [chunkLoop]; omega
  | succ fuel ih =>
    intro i hi
    have hcond : i < (xs.length : Int) := by omega
    simp only [chunkLoop, if_pos hcond]
    rw [ih (i + c) (by omega)]
    rfl

/-- Claim C10: for chunk size `c ≥ 1` the `chunkArray` loop terminates
within `|xs|` iterations, its chunks concatenate back to `xs`, and each
chunk has length at most `c`; for `c ≤ 0` and non-empty input the loop
never terminates (no fuel suffices); and the configuration merge imposes
no positive lower bound on `ai.batch_size` (a loaded `0` is kept). -/
theorem claim_C10_chunkArray {α : Type} (xs : List α) (c : Int) (hc : 1 ≤ c) :
    (∃ ch, chunkArray xs c xs.length = some ch ∧
      ch.flatten = xs ∧ ∀ l ∈ ch, l.length ≤ c.toNat) ∧
    (∀ c' : Int, c' ≤ 0 → xs ≠ [] → ∀ fuel, chunkArray xs c' fuel = none) ∧
    mergedAiBatchSize (some 0) = 0 := by
  refine ⟨?_, ?_, rfl⟩
  · obtain ⟨ch, hch, hjoin, hlen⟩ := chunkLoop_total xs c hc xs.length 0 le_rfl
      (by
        have h1 : (xs.length : Int) * 1 ≤ (xs.length : Int) * c := by
          apply mul_le_mul_of_nonneg_left hc
          omega
        omega)
    exact ⟨ch, hch, by simpa using hjoin, hlen⟩
  · intro c' hc' hne fuel
    exact chunkLoop_diverges xs c' hc' hne fuel 0 le_rfl

/-- Witness for C10 at `xs = [1,2,3]`, `c = 2`. -/
theorem claim_C10_chunkArray_witness :
    (1:Int) ≤ 2 ∧
    (∃ ch, chunkArray [1,2,3] (2:Int) 3 = some ch ∧
      ch.flatten = [1,2,3] ∧ ∀ l ∈ ch, l.length ≤ (2:Int).toNat) :=
  ⟨by decide, (claim_C10_chunkArray [1,2,3] 2 (by decide)).1⟩

/-! ### Tree scanner (`FileScanService.scanDirs`) and directory registry
(`MainService.updateKnownDirectories`) -/

/-- A destination-directory tree: named subdirectories and plain files, as
seen by `fs.readdirSync`/`statSync` during the walk. -/
inductive DTree where
  | mk (dirs : List (String × DTree)) (files : List String)

/-- `path.join(base, entry)` with the empty initial base of the walk. -/
def joinRel (base name : String) : String :=
  if base = "" then name else base ++ "/" ++ name

/-- The `walk` closure of `FileScanService.scanDirs`: every directory entry
is pushed as `relPath + "/"`, and the walk recurses while
`depth < MAX_SCAN_DEPTH`.  `gas` is `MAX_SCAN_DEPTH - depth`. -/
def scanDirsWalk : Nat → DTree → String → List String
  | 0, .mk ds _, base => ds.map (fun e => joinRel base e.1 ++ "/")
  | g + 1, .mk ds _, base =>
    ds.flatMap (fun e => (joinRel base e.1 ++ "/") :: scanDirsWalk g e.2 (joinRel base e.1))

/-- `FileScanService.scanDirs(rootDir)`: `none` models a missing root
(`existsSync` false, empty result). -/
def scanDirs (maxDepth : Nat) : Option DTree → List String
  | none => []
  | some t => scanDirsWalk maxDepth t ""

/-- Strip all trailing `'/'` characters (the normalization `path.relative`
applies to its arguments). -/
def stripTrailingSlashesL (cs : List Char) : List Char :=
  (cs.reverse.dropWhile (fun c => c = '/')).reverse

/-- Model of Node `path.relative(root, p)` for the cases reachable here:
both arguments are normalized (trailing separators dropped); if `p` lies
under `root` the `root ++ "/"` part is removed, if `p` equals `root` the
result is empty. -/
def pathRelative (root p : String) : String :=
  let pc := stripTrailingSlashesL p.data
  let rc := stripTrailingSlashesL root.data
  if pc = rc then ""
  else if (rc ++ ['/']).isPrefixOf pc then String.mk (pc.drop (rc.length + 1))
  else String.mk pc

/-- `MainService.updateKnownDirectories`: record `path.relative(ROOT_DIR,
newDirPath)` when non-empty and not already present. -/
def updateKnownDirectories (rootDir : String) (known : List String)
    (newDirPath : String) : List String :=
  let relativeDir := pathRelative rootDir newDirPath
  if relativeDir ≠ "" ∧ relativeDir ∉ known then known ++ [relativeDir] else known

theorem scanDirsWalk_endsSlash :
    ∀ (gas : Nat) (t : DTree) (base : String) (s : String),
      s ∈ scanDirsWalk gas t base → s.data.getLast? = some '/' := by
  intro gas
  induction gas with
  | zero =>
    rintro ⟨ds, fs⟩ base s hs
    simp only [scanDirsWalk, List.mem_map] at hs
    obtain ⟨e, _, rfl⟩ := hs
    rw [String.data_append]
    have h : ("/" : String).data = ['/'] := by decide
    rw [h]
    exact List.getLast?_concat _
  | succ g ih =>
    rintro ⟨ds, fs⟩ base s hs
    simp only [scanDirsWalk, List.mem_flatMap] at hs
    obtain ⟨e, _, hmem⟩ := hs
    rcases List.mem_cons.mp hmem with rfl | htail
    · rw [String.data_append]
      have h : ("/" : String).data = ['/'] := by decide
      rw [h]
      exact List.getLast?_concat _
    · exact ih e.2 (joinRel base e.1) s htail

/-- Counterexample to claim C7: the seeded registry spells directory `A` as
`"A/"` while a recorded move spells it `"A"`; both end up in the registry,
two spellings of the same directory differing only in the trailing
separator. -/
theorem claim_C7_counterexample :
    updateKnownDirectories "R"
        (scanDirs 3 (some (DTree.mk [("A", DTree.mk [] [])] []))) "R/A" =
      ["A/", "A"] ∧
    ¬ (∀ x ∈ updateKnownDirectories "R"
          (scanDirs 3 (some (DTree.mk [("A", DTree.mk [] [])] []))) "R/A",
        ∀ y ∈ updateKnownDirectories "R"
          (scanDirs 3 (some (DTree.mk [("A", DTree.mk [] [])] []))) "R/A",
        stripTrailingSlashesL x.data = stripTrailingSlashesL y.data → x = y) := by
  constructor
  · decide
  · decide

/-- Claim C7 amended: entries seeded by the tree scanner always carry a
trailing separator, while `updateKnownDirectories` records the
`path.relative` spelling, which carries none; consequently the registry
can hold the same directory under both spellings (witnessed by the
`"A/"`/`"A"` instance). -/
theorem claim_C7_amended :
    (∀ (gas : Nat) (t : Option DTree) (s : String),
      s ∈ scanDirs gas t → s.data.getLast? = some '/') ∧
    updateKnownDirectories "R" ["A/"] "R/A" = ["A/", "A"] := by
  constructor
  · rintro gas (_ | t) s hs
    · simp [scanDirs] at hs
    · exact scanDirsWalk_endsSlash gas t "" s hs
  · decide

/-- Witness for the amended C7 at a concrete scan. -/
theorem claim_C7_amended_witness :
    ("A/" ∈ scanDirs 3 (some (DTree.mk [("A", DTree.mk [] [])] []))) ∧
    ("A/" : String).data.getLast? = some '/' :=
  ⟨by decide, claim_C7_amended.1 3 (some (DTree.mk [("A", DTree.mk [] [])] [])) "A/"
    (by decide)⟩

/-! ### AI batch orchestration (`MainService.runOnce`, third step) -/

/-- An entry of `needAIClassification`. -/
structure AIFileInfo where
  fileName : String
  filePath : String
  description : String
  deriving Repr, DecidableEq

/-- An element of the classifier's response
(`{fileName, path}`; confidence/reasoning are only logged). -/
structure ClassResult where
  fileName : String
  path : String
  deriving Repr, DecidableEq

/-- Outcome of processing one batch's classification results: the updated
known-directory list, the moves performed (fileName, fullTargetDir), and
the response file names warned about with `找不到文件信息`. -/
structure PCOut where
  known : List String
  moves : List (String × String)
  warns : List String
  deriving Repr, DecidableEq

/-- The `for (let i = 0; i < classificationResults.length; i++)` loop of
`MainService.runOnce`: look the response item up in the batch by
`fileName` (warn and continue when absent), default an empty trimmed path
to `未分类`, strip a trailing segment equal to the file's basename, join
under the root, move (`moveOk` tells whether `moveFile` succeeded — a
failed move is caught and logged, recording nothing), and record the
target directory. -/
def processBatchResults (rootDir : String) (moveOk : String → Bool)
    (batch : List AIFileInfo) : List ClassResult → List String → PCOut
  | [], known => ⟨known, [], []⟩
  | r :: rest, known =>
    match batch.find? (fun f => f.fileName == r.fileName) with
    | none =>
      let out := processBatchResults rootDir moveOk batch rest known
      ⟨out.known, out.moves, r.fileName :: out.warns⟩
    | some fileInfo =>
      let targetDir0 := jsTrim r.path
      let targetDir := if targetDir0 = "" then "未分类" else targetDir0
      let givenBase := jsBasename targetDir
      let fileBase := jsBasename fileInfo.filePath
      let normalizedRelTargetDir :=
        if givenBase = fileBase then jsDirname targetDir else targetDir
      let fullTargetDir := pathJoin rootDir normalizedRelTargetDir
      if moveOk r.fileName then
        let known2 := updateKnownDirectories rootDir known fullTargetDir
        let out := processBatchResults rootDir moveOk batch rest known2
        ⟨out.known, (r.fileName, fullTargetDir) :: out.moves, out.warns⟩
      else
        let out := processBatchResults rootDir moveOk batch rest known
        ⟨out.known, out.moves, out.warns⟩

/-- Per-batch record of the `for (batchIndex …)` loop: the `knownDirs`
snapshot passed to `classifyBatch`, whether the call succeeded, the moves
performed, and the directories newly recorded by this batch. -/
structure BatchTrace where
  snapshot : List String
  ok : Bool
  moves : List (String × String)
  recorded : List String
  deriving Repr, DecidableEq

/-- The batch loop of `MainService.runOnce`: classify each batch with the
current `currentKnownDirs`; on failure log and continue with the next
batch; on success process the results (which updates the known-directory
list).  Returns the final known list and the per-batch trace. -/
def runBatchLoop (rootDir : String)
    (classify : Nat → List AIFileInfo → List String → Option (List ClassResult))
    (moveOk : String → Bool) :
    List (List AIFileInfo) → Nat → List String → (List String × List BatchTrace)
  | [], _, known => (known, [])
  | batch :: rest, idx, known =>
    match classify idx batch known with
    | none =>
      let out := runBatchLoop rootDir classify moveOk rest (idx + 1) known
      (out.1, ⟨known, false, [], []⟩ :: out.2)
    | some results =>
      let pc := processBatchResults rootDir moveOk batch results known
      let out := runBatchLoop rootDir classify moveOk rest (idx + 1) pc.known
      (out.1, ⟨known, true, pc.moves, pc.known.drop known.length⟩ :: out.2)

theorem updateKnownDirectories_append (rootDir : String) (known : List String)
    (d : String) : ∃ t, updateKnownDirectories rootDir known d = known ++ t := by
  unfold updateKnownDirectories
  by_cases h : pathRelative rootDir d ≠ "" ∧ pathRelative rootDir d ∉ known
  · exact ⟨[pathRelative rootDir d], by rw [if_pos h]⟩
  · exact ⟨[], by rw [if_neg h, List.append_nil]⟩

theorem processBatchResults_known_append (rootDir : String) (moveOk : String → Bool)
    (batch : List AIFileInfo) :
    ∀ (results : List ClassResult) (known : List String),
      ∃ t, (processBatchResults rootDir moveOk batch results known).known = known ++ t := by
  intro results
  induction results with
  | nil => intro known; exact ⟨[], by simp [processBatchResults]⟩
  | cons r rest ih =>
    intro known
    cases hf : batch.find? (fun f => f.fileName == r.fileName) with
    | none =>
      obtain ⟨t, ht⟩ := ih known
      exact ⟨t, by simp only [processBatchResults, hf]; exact ht⟩
    | some fileInfo =>
      cases hmo : moveOk r.fileName with
      | false =>
        obtain ⟨t, ht⟩ := ih known
        exact ⟨t, by simp only [processBatchResults, hf, hmo]; exact ht⟩
      | true =>
        obtain ⟨t1, ht1⟩ := updateKnownDirectories_append rootDir known
          (pathJoin rootDir
            (if jsBasename (if jsTrim r.path = "" then "未分类" else jsTrim r.path)
                = jsBasename fileInfo.filePath then
              jsDirname (if jsTrim r.path = "" then "未分类" else jsTrim r.path)
            else (if jsTrim r.path = "" then "未分类" else jsTrim r.path)))
        obtain ⟨t2, ht2⟩ := ih (known ++ t1)
        refine ⟨t1 ++ t2, ?_⟩
        simp only [processBatchResults, hf, hmo]
        rw [ht1, ht2, List.append_assoc]
        simp

theorem runBatchLoop_spec (rootDir : String)
    (classify : Nat → List AIFileInfo → List String → Option (List ClassResult))
    (moveOk : String → Bool) :
    ∀ (batches : List (List AIFileInfo)) (idx : Nat) (known : List String),
      (runBatchLoop rootDir classify moveOk batches idx known).2.length = batches.length ∧
      (∀ e, (runBatchLoop rootDir classify moveOk batches idx known).2[0]? = some e →
        e.snapshot = known) ∧
      (∀ j e e',
        (runBatchLoop rootDir classify moveOk batches idx known).2[j]? = some e →
        (runBatchLoop rootDir classify moveOk batches idx known).2[j + 1]? = some e' →
        e'.snapshot = e.snapshot ++ e.recorded) ∧
      (∀ j b e, batches[j]? = some b →
        (runBatchLoop rootDir classify moveOk batches idx known).2[j]? = some e →
        (e.ok = (classify (idx + j) b e.snapshot).isSome) ∧
        (∀ res, classify (idx + j) b e.snapshot = some res →
          e.moves = (processBatchResults rootDir moveOk b res e.snapshot).moves ∧
          e.snapshot ++ e.recorded =
            (processBatchResults rootDir moveOk b res e.snapshot).known)) := by
  intro batches
  induction batches with
  | nil =>
    intro idx known
    refine ⟨rfl, ?_, ?_, ?_⟩
    · intro e he; simp [runBatchLoop] at he
    · intro j e e' he _; simp [runBatchLoop] at he
    · intro j b e hb; simp at hb
  | cons batch rest ih =>
    intro idx known
    cases hcl : classify idx batch known with
    | none =>
      obtain ⟨ihlen, ihhead, ihadj, ihchar⟩ := ih (idx + 1) known
      refine ⟨?_, ?_, ?_, ?_⟩
      · simp only [runBatchLoop, hcl, List.length_cons]
        rw [ihlen]
      · intro e he
        simp only [runBatchLoop, hcl, List.getElem?_cons_zero] at he
        cases he
        rfl
      · intro j e e' he he'
        simp only [runBatchLoop, hcl] at he he'
        cases j with
        | zero =>
          rw [List.getElem?_cons_zero] at he
          rw [List.getElem?_cons_succ] at he'
          cases he
          have := ihhead e' he'
          rw [this]
          simp
        | succ j =>
          rw [List.getElem?_cons_succ] at he he'
          exact ihadj j e e' he he'
      · intro j b e hb he
        simp only [runBatchLoop, hcl] at he
        cases j with
        | zero =>
          rw [List.getElem?_cons_zero] at hb he
          cases hb; cases he
          refine ⟨?_, ?_⟩
          · rw [Nat.add_zero, hcl]
            rfl
          · intro res hres
            rw [Nat.add_zero] at hres
            rw [hcl] at hres
            cases hres
        | succ j =>
          rw [List.getElem?_cons_succ] at hb he
          have h := ihchar j b e hb he
          have harith : idx + (j + 1) = idx + 1 + j := by omega
          rw [harith]
          exact h
    | some results =>
      obtain ⟨ihlen, ihhead, ihadj, ihchar⟩ :=
        ih (idx + 1) (processBatchResults rootDir moveOk batch results known).known
      refine ⟨?_, ?_, ?_, ?_⟩
      · simp only [runBatchLoop, hcl, List.length_cons]
        rw [ihlen]
      · intro e he
        simp only [runBatchLoop, hcl, List.getElem?_cons_zero] at he
        cases he
        rfl
      · intro j e e' he he'
        simp only [runBatchLoop, hcl] at he he'
        cases j with
        | zero =>
          rw [List.getElem?_cons_zero] at he
          rw [List.getElem?_cons_succ] at he'
          cases he
          have := ihhead e' he'
          rw [this]
          obtain ⟨t, ht⟩ := processBatchResults_known_append rootDir moveOk batch results known
          rw [ht]
          simp [List.drop_left]
        | succ j =>
          rw [List.getElem?_cons_succ] at he he'
          exact ihadj j e e' he he'
      · intro j b e hb he
        simp only [runBatchLoop, hcl] at he
        cases j with
        | zero =>
          rw [List.getElem?_cons_zero] at hb he
          cases hb; cases he
          rw [Nat.add_zero]
          refine ⟨by rw [hcl]; rfl, ?_⟩
          · intro res hres
            rw [hcl] at hres
            cases hres
            refine ⟨rfl, ?_⟩
            obtain ⟨t, ht⟩ := processBatchResults_known_append rootDir moveOk batch results known
            rw [ht]
            simp [List.drop_left]
        | succ j =>
          rw [List.getElem?_cons_succ] at hb he
          have h := ihchar j b e hb he
          have harith : idx + (j + 1) = idx + 1 + j := by omega
          rw [harith]
          exact h

/-- Claim C5: every batch is attempted (one trace entry per batch), and a
batch whose own classifier call succeeds is processed — its results are
moved — regardless of failures of any other batch; a failed call records
a failure entry and the loop continues. -/
theorem claim_C5_batch_failure_isolation (rootDir : String)
    (classify : Nat → List AIFileInfo → List String → Option (List ClassResult))
    (moveOk : String → Bool) (batches : List (List AIFileInfo))
    (idx : Nat) (known : List String) :
    (runBatchLoop rootDir classify moveOk batches idx known).2.length = batches.length ∧
    (∀ j b e, batches[j]? = some b →
      (runBatchLoop rootDir classify moveOk batches idx known).2[j]? = some e →
      ∀ res, classify (idx + j) b e.snapshot = some res →
        e.ok = true ∧
        e.moves = (processBatchResults rootDir moveOk b res e.snapshot).moves) := by
  obtain ⟨hlen, _, _, hchar⟩ := runBatchLoop_spec rootDir classify moveOk batches idx known
  refine ⟨hlen, ?_⟩
  intro j b e hb he res hres
  obtain ⟨hok, hmv⟩ := hchar j b e hb he
  exact ⟨by rw [hok, hres]; rfl, (hmv res hres).1⟩

/-- Classifier oracle for the C5 witness: fails on batch 0 only. -/
def witClassifyC5 : Nat → List AIFileInfo → List String → Option (List ClassResult) :=
  fun i _ _ => if i = 0 then none else some [⟨"b.txt", "D2"⟩]

/-- Witness for C5: the classifier fails on batch 0 but batch 1 is still
classified and its file moved. -/
theorem claim_C5_batch_failure_isolation_witness :
    (([[⟨"a.txt", "in/a.txt", ""⟩], [⟨"b.txt", "in/b.txt", ""⟩]] :
        List (List AIFileInfo))[1]? = some [⟨"b.txt", "in/b.txt", ""⟩] ∧
      (runBatchLoop "R" witClassifyC5 (fun _ => true)
        [[⟨"a.txt", "in/a.txt", ""⟩], [⟨"b.txt", "in/b.txt", ""⟩]] 0 []).2[1]? =
        some ⟨[], true, [("b.txt", "R/D2")], ["D2"]⟩ ∧
      witClassifyC5 (0 + 1) [⟨"b.txt", "in/b.txt", ""⟩]
        (⟨[], true, [("b.txt", "R/D2")], ["D2"]⟩ : BatchTrace).snapshot =
        some [⟨"b.txt", "D2"⟩]) ∧
    ((⟨[], true, [("b.txt", "R/D2")], ["D2"]⟩ : BatchTrace).ok = true ∧
      (⟨[], true, [("b.txt", "R/D2")], ["D2"]⟩ : BatchTrace).moves =
        (processBatchResults "R" (fun _ => true) [⟨"b.txt", "in/b.txt", ""⟩]
          [⟨"b.txt", "D2"⟩]
          (⟨[], true, [("b.txt", "R/D2")], ["D2"]⟩ : BatchTrace).snapshot).moves) :=
  ⟨⟨by decide, by decide, by decide⟩,
    (claim_C5_batch_failure_isolation "R" witClassifyC5 (fun _ => true)
      [[⟨"a.txt", "in/a.txt", ""⟩], [⟨"b.txt", "in/b.txt", ""⟩]] 0 []).2
      1 [⟨"b.txt", "in/b.txt", ""⟩] ⟨[], true, [("b.txt", "R/D2")], ["D2"]⟩
      (by decide) (by decide) [⟨"b.txt", "D2"⟩] (by decide)⟩

/-- Claim C6: the known-directory list only grows (`updateKnownDirectories`
appends, never removes), and the snapshot handed to batch `k+1` is the
snapshot of batch `k` extended with exactly the directories batch `k`
recorded — so every directory recorded by batch `k` is visible to batch
`k+1`. -/
theorem claim_C6_registry_monotone :
    (∀ (rootDir : String) (known : List String) (d : String),
      ∃ t, updateKnownDirectories rootDir known d = known ++ t) ∧
    (∀ (rootDir : String)
      (classify : Nat → List AIFileInfo → List String → Option (List ClassResult))
      (moveOk : String → Bool) (batches : List (List AIFileInfo))
      (idx : Nat) (known : List String) (j : Nat) (e e' : BatchTrace),
      (runBatchLoop rootDir classify moveOk batches idx known).2[j]? = some e →
      (runBatchLoop rootDir classify moveOk batches idx known).2[j + 1]? = some e' →
      e'.snapshot = e.snapshot ++ e.recorded ∧
        ∀ d ∈ e.recorded, d ∈ e'.snapshot) := by
  refine ⟨updateKnownDirectories_append, ?_⟩
  intro rootDir classify moveOk batches idx known j e e' he he'
  obtain ⟨_, _, hadj, _⟩ := runBatchLoop_spec rootDir classify moveOk batches idx known
  have h := hadj j e e' he he'
  refine ⟨h, ?_⟩
  intro d hd
  rw [h]
  exact List.mem_append_right _ hd

/-- Classifier oracle for the C6 witness: batch 0 creates `D1`, batch 1
creates `D2`. -/
def witClassifyC6 : Nat → List AIFileInfo → List String → Option (List ClassResult) :=
  fun i _ _ => some (if i = 0 then [⟨"a.txt", "D1"⟩] else [⟨"b.txt", "D2"⟩])

/-- Witness for C6: batch 0 records directory `D1`, and batch 1's snapshot
contains it. -/
theorem claim_C6_registry_monotone_witness :
    ((runBatchLoop "R" witClassifyC6 (fun _ => true)
        [[⟨"a.txt", "in/a.txt", ""⟩], [⟨"b.txt", "in/b.txt", ""⟩]] 0 []).2[0]? =
      some ⟨[], true, [("a.txt", "R/D1")], ["D1"]⟩ ∧
     (runBatchLoop "R" witClassifyC6 (fun _ => true)
        [[⟨"a.txt", "in/a.txt", ""⟩], [⟨"b.txt", "in/b.txt", ""⟩]] 0 []).2[0 + 1]? =
      some ⟨["D1"], true, [("b.txt", "R/D2")], ["D2"]⟩) ∧
    ((⟨["D1"], true, [("b.txt", "R/D2")], ["D2"]⟩ : BatchTrace).snapshot =
      (⟨[], true, [("a.txt", "R/D1")], ["D1"]⟩ : BatchTrace).snapshot ++
        (⟨[], true, [("a.txt", "R/D1")], ["D1"]⟩ : BatchTrace).recorded ∧
     ∀ d ∈ (⟨[], true, [("a.txt", "R/D1")], ["D1"]⟩ : BatchTrace).recorded,
       d ∈ (⟨["D1"], true, [("b.txt", "R/D2")], ["D2"]⟩ : BatchTrace).snapshot) :=
  ⟨⟨by decide, by decide⟩,
    claim_C6_registry_monotone.2 "R" witClassifyC6 (fun _ => true)
      [[⟨"a.txt", "in/a.txt", ""⟩], [⟨"b.txt", "in/b.txt", ""⟩]] 0 [] 0
      ⟨[], true, [("a.txt", "R/D1")], ["D1"]⟩
      ⟨["D1"], true, [("b.txt", "R/D2")], ["D2"]⟩
      (by decide) (by decide)⟩

theorem processBatchResults_moves_named (rootDir : String) (moveOk : String → Bool)
    (batch : List AIFileInfo) :
    ∀ (results : List ClassResult) (known : List String),
      (∀ m ∈ (processBatchResults rootDir moveOk batch results known).moves,
        m.1 ∈ results.map ClassResult.fileName) ∧
      (∀ w ∈ (processBatchResults rootDir moveOk batch results known).warns,
        w ∈ results.map ClassResult.fileName) := by
  intro results
  induction results with
  | nil =>
    intro known
    exact ⟨by intro m hm; simp [processBatchResults] at hm,
      by intro w hw; simp [processBatchResults] at hw⟩
  | cons r rest ih =>
    intro known
    cases hf : batch.find? (fun f => f.fileName == r.fileName) with
    | none =>
      refine ⟨?_, ?_⟩
      · intro m hm
        simp only [processBatchResults, hf] at hm
        exact List.mem_cons_of_mem _ ((ih known).1 m hm)
      · intro w hw
        simp only [processBatchResults, hf] at hw
        rcases List.mem_cons.mp hw with rfl | htail
        · exact List.mem_cons_self _ _
        · exact List.mem_cons_of_mem _ ((ih known).2 w htail)
    | some fileInfo =>
      cases hmo : moveOk r.fileName with
      | true =>
        refine ⟨?_, ?_⟩
        · intro m hm
          simp only [processBatchResults, hf, hmo, if_true] at hm
          rcases List.mem_cons.mp hm with rfl | htail
          · exact List.mem_cons_self _ _
          · exact List.mem_cons_of_mem _ ((ih _).1 m htail)
        · intro w hw
          simp only [processBatchResults, hf, hmo, if_true] at hw
          exact List.mem_cons_of_mem _ ((ih _).2 w hw)
      | false =>
        refine ⟨?_, ?_⟩
        · intro m hm
          simp only [processBatchResults, hf, hmo] at hm
          exact List.mem_cons_of_mem _ ((ih known).1 m hm)
        · intro w hw
          simp only [processBatchResults, hf, hmo] at hw
          exact List.mem_cons_of_mem _ ((ih known).2 w hw)

theorem processBatchResults_warns_unmatched (rootDir : String) (moveOk : String → Bool)
    (batch : List AIFileInfo) :
    ∀ (results : List ClassResult) (known : List String) (r : ClassResult),
      r ∈ results → batch.find? (fun f => f.fileName == r.fileName) = none →
      r.fileName ∈ (processBatchResults rootDir moveOk batch results known).warns := by
  intro results
  induction results with
  | nil => intro known r hr; simp at hr
  | cons r' rest ih =>
    intro known r hr hnone
    rcases List.mem_cons.mp hr with rfl | htail
    · simp only [processBatchResults, hnone]
      exact List.mem_cons_self _ _
    · cases hf : batch.find? (fun f => f.fileName == r'.fileName) with
      | none =>
        simp only [processBatchResults, hf]
        exact List.mem_cons_of_mem _ (ih known r htail hnone)
      | some fileInfo =>
        cases hmo : moveOk r'.fileName with
        | true =>
          simp only [processBatchResults, hf, hmo, if_true]
          exact ih _ r htail hnone
        | false =>
          simp only [processBatchResults, hf, hmo]
          exact ih known r htail hnone

/-- Counterexample to claim C1: a two-file batch whose response omits
`b.txt` — the omitted request item receives neither a move nor a log
entry; it is silently skipped. -/
theorem claim_C1_counterexample :
    (processBatchResults "R" (fun _ => true)
        [⟨"a.txt", "in/a.txt", "d"⟩, ⟨"b.txt", "in/b.txt", "d"⟩]
        [⟨"a.txt", "docs"⟩] []).moves = [("a.txt", "R/docs")] ∧
    (processBatchResults "R" (fun _ => true)
        [⟨"a.txt", "in/a.txt", "d"⟩, ⟨"b.txt", "in/b.txt", "d"⟩]
        [⟨"a.txt", "docs"⟩] []).warns = [] ∧
    ¬ (∀ f ∈ ([⟨"a.txt", "in/a.txt", "d"⟩, ⟨"b.txt", "in/b.txt", "d"⟩] :
          List AIFileInfo),
        (∃ m ∈ (processBatchResults "R" (fun _ => true)
            [⟨"a.txt", "in/a.txt", "d"⟩, ⟨"b.txt", "in/b.txt", "d"⟩]
            [⟨"a.txt", "docs"⟩] []).moves, m.1 = f.fileName) ∨
        f.fileName ∈ (processBatchResults "R" (fun _ => true)
            [⟨"a.txt", "in/a.txt", "d"⟩, ⟨"b.txt", "in/b.txt", "d"⟩]
            [⟨"a.txt", "docs"⟩] []).warns) := by
  refine ⟨by decide, by decide, by decide⟩

/-- Claim C1 amended: a response item that matches no request item is
warned about (`找不到文件信息`) and skipped, and every move or warning
carries a response file name — but a request item whose name appears in
no response element receives neither a move nor a warning: it is silently
dropped from accounting. -/
theorem claim_C1_amended (rootDir : String) (moveOk : String → Bool)
    (batch : List AIFileInfo) (results : List ClassResult)
    (known : List String) :
    (∀ r ∈ results, batch.find? (fun f => f.fileName == r.fileName) = none →
      r.fileName ∈ (processBatchResults rootDir moveOk batch results known).warns) ∧
    (∀ f : AIFileInfo, f ∈ batch →
      f.fileName ∉ results.map ClassResult.fileName →
      ¬ ((∃ m ∈ (processBatchResults rootDir moveOk batch results known).moves,
            m.1 = f.fileName) ∨
          f.fileName ∈ (processBatchResults rootDir moveOk batch results known).warns)) := by
  refine ⟨?_, ?_⟩
  · intro r hr hnone
    exact processBatchResults_warns_unmatched rootDir moveOk batch results known r hr hnone
  · intro f _ hnotin h
    rcases h with ⟨m, hm, hname⟩ | hw
    · exact hnotin (hname ▸ (processBatchResults_moves_named rootDir moveOk batch
        results known).1 m hm)
    · exact hnotin ((processBatchResults_moves_named rootDir moveOk batch
        results known).2 _ hw)

/-- Witness for the amended C1 at the counterexample's input. -/
theorem claim_C1_amended_witness :
    ((⟨"b.txt", "in/b.txt", "d"⟩ : AIFileInfo) ∈
        ([⟨"a.txt", "in/a.txt", "d"⟩, ⟨"b.txt", "in/b.txt", "d"⟩] : List AIFileInfo) ∧
      (⟨"b.txt", "in/b.txt", "d"⟩ : AIFileInfo).fileName ∉
        ([⟨"a.txt", "docs"⟩] : List ClassResult).map ClassResult.fileName) ∧
    ¬ ((∃ m ∈ (processBatchResults "R" (fun _ => true)
          [⟨"a.txt", "in/a.txt", "d"⟩, ⟨"b.txt", "in/b.txt", "d"⟩]
          [⟨"a.txt", "docs"⟩] []).moves,
        m.1 = (⟨"b.txt", "in/b.txt", "d"⟩ : AIFileInfo).fileName) ∨
      (⟨"b.txt", "in/b.txt", "d"⟩ : AIFileInfo).fileName ∈
        (processBatchResults "R" (fun _ => true)
          [⟨"a.txt", "in/a.txt", "d"⟩, ⟨"b.txt", "in/b.txt", "d"⟩]
          [⟨"a.txt", "docs"⟩] []).warns) :=
  ⟨⟨by decide, by decide⟩,
    (claim_C1_amended "R" (fun _ => true)
      [⟨"a.txt", "in/a.txt", "d"⟩, ⟨"b.txt", "in/b.txt", "d"⟩]
      [⟨"a.txt", "docs"⟩] []).2 ⟨"b.txt", "in/b.txt", "d"⟩
      (by decide) (by decide)⟩

/-! ### Resilient mover (`FileMoveService`)

The filesystem is a finite map from path to byte content plus a set of
directories.  Primitive operations are state-determined where the code's
error dispatch assumes so (`EEXIST` when the destination exists, `ENOENT`
when the source is gone); transient outcomes (cross-device, busy,
corrupted copy) are injected by a schedule of events consumed one per
fallible device operation. -/

/-- File content: a byte list (`statSync(..).size` is its length). -/
abbrev Content := List Nat

/-- The filesystem state. -/
structure FS where
  files : List (String × Content)
  dirs : List String
  deriving Repr, DecidableEq

/-- Association-list lookup by path. -/
def lookupF : List (String × Content) → String → Option Content
  | [], _ => none
  | e :: rest, p => if e.1 = p then some e.2 else lookupF rest p

/-- Remove every binding of a path. -/
def removeF : List (String × Content) → String → List (String × Content)
  | [], _ => []
  | e :: rest, p => if e.1 = p then removeF rest p else e :: removeF rest p

/-- Write a binding (overwriting any existing one). -/
def setF (files : List (String × Content)) (p : String) (c : Content) :
    List (String × Content) := (p, c) :: removeF files p

/-- Membership in the directory set. -/
def memB : List String → String → Bool
  | [], _ => false
  | d :: rest, p => if d = p then true else memB rest p

/-- Model of `fs.existsSync`: a file or a directory at the path. -/
def existsPathB (fs : FS) (p : String) : Bool :=
  (lookupF fs.files p).isSome || memB fs.dirs p

/-- Injected event for one fallible device operation. -/
inductive FsEv where
  | ok
  | exdev
  | busy
  | badCopy (c : Content)
  deriving Repr, DecidableEq

/-- Error codes distinguished by the mover (`EACCES`/`EPERM` behave like
`EBUSY` in the retry dispatch and are represented by it). -/
inductive FsErr where
  | enoent
  | eexist
  | eisdir
  | exdev
  | ebusy
  | verifyFail
  deriving Repr, DecidableEq

/-- Outcome of a completed `moveFile`. -/
inductive MoveOut where
  | moved (p : String)
  | skipped
  | dryRun
  deriving Repr, DecidableEq

/-- Pop the next injected event (`ok` when the schedule is exhausted). -/
def popEv : List FsEv → FsEv × List FsEv
  | [] => (.ok, [])
  | e :: rest => (e, rest)

/-- Model of `fs.renameSync`: `ENOENT` when the source is missing and
`EISDIR` when the destination is an existing directory (both
state-determined); otherwise the injected event decides between `EXDEV`,
`EBUSY` and success.  An existing destination *file* is silently
replaced, as POSIX `rename(2)` on Linux and `MoveFileEx` with
`REPLACE_EXISTING` on Windows both do; `fs.renameSync` never raises
`EEXIST` for an existing destination file. -/
def renameSync (src dst : String) (fs : FS) (sched : List FsEv) :
    Except FsErr FS × List FsEv :=
  match lookupF fs.files src with
  | none => (.error .enoent, sched)
  | some c =>
    if memB fs.dirs dst then (.error .eisdir, sched)
    else
      match popEv sched with
      | (.exdev, rest) => (.error .exdev, rest)
      | (.busy, rest) => (.error .ebusy, rest)
      | (_, rest) => (.ok { fs with files := setF (removeF fs.files src) dst c }, rest)

/-- Model of `fs.cpSync(src, dst, {force: true})` /
`fs.copyFileSync`: overwrites `dst`; a `badCopy` event writes corrupted
content, a `busy` event fails, otherwise the copy is exact. -/
def cpSync (src dst : String) (fs : FS) (sched : List FsEv) :
    Except FsErr FS × List FsEv :=
  match lookupF fs.files src with
  | none => (.error .enoent, sched)
  | some c =>
    match popEv sched with
    | (.badCopy cb, rest) => (.ok { fs with files := setF fs.files dst cb }, rest)
    | (.busy, rest) => (.error .ebusy, rest)
    | (_, rest) => (.ok { fs with files := setF fs.files dst c }, rest)

/-- Model of `fs.unlinkSync`. -/
def unlinkSync (p : String) (fs : FS) (sched : List FsEv) :
    Except FsErr FS × List FsEv :=
  match lookupF fs.files p with
  | none => (.error .enoent, sched)
  | some _ =>
    match popEv sched with
    | (.busy, rest) => (.error .ebusy, rest)
    | (_, rest) => (.ok { fs with files := removeF fs.files p }, rest)

/-- Model of `fs.statSync(p).size`. -/
def statSizeF (fs : FS) (p : String) : Option Nat :=
  (lookupF fs.files p).map List.length

/-- `FileMoveService.ensureDir`. -/
def ensureDir (fs : FS) (dir : String) : FS :=
  if existsPathB fs dir then fs else { fs with dirs := dir :: fs.dirs }

/-- The temporary path `${base}.tmp-${uniqueSuffix}${ext}` of
`copyThenUnlinkWithFinalize`; the `Date.now()`-plus-random suffix is a
model parameter. -/
def tempPath (targetDir src suffix : String) : String :=
  pathJoin targetDir (jsBasenameExt src (jsExtname src) ++ ".tmp-" ++ suffix ++ jsExtname src)

/-- The candidate names tried by `generateUniqueTargetPath`:
`${name}_${timestamp}${ext}` first, then `${name}_${timestamp}_${k}${ext}`
for `k = 1, 2, …`; the second-precision ISO timestamp is a model
parameter. -/
def moveCand (targetDir src ts : String) (k : Nat) : String :=
  if k = 0 then
    pathJoin targetDir (jsBasenameExt src (jsExtname src) ++ "_" ++ ts ++ jsExtname src)
  else
    pathJoin targetDir
      (jsBasenameExt src (jsExtname src) ++ "_" ++ ts ++ "_" ++ toString k ++ jsExtname src)

/-- The `while (true)` counter loop of `generateUniqueTargetPath`, with
fuel. -/
def genLoop (fs : FS) (targetDir src ts : String) : Nat → Nat → Option String
  | _, 0 => none
  | counter, fuel + 1 =>
    if existsPathB fs (moveCand targetDir src ts counter) = false then
      some (moveCand targetDir src ts counter)
    else genLoop fs targetDir src ts (counter + 1) fuel

/-- `FileMoveService.generateUniqueTargetPath`. -/
def generateUniqueTargetPath (fs : FS) (targetDir originalFilePath ts : String)
    (fuel : Nat) : Option String :=
  if existsPathB fs (moveCand targetDir originalFilePath ts 0) = false then
    some (moveCand targetDir originalFilePath ts 0)
  else genLoop fs targetDir originalFilePath ts 1 fuel

/-- `FileMoveService.unlinkWithRetryRecursive`: retry busy-class unlink
failures while `attempt < FILE_MAX_RETRIES`. -/
def unlinkWithRetryRecursive (maxR : Nat) (src : String) :
    Nat → FS → List FsEv → Nat → Option (Except FsErr FS × List FsEv)
  | 0, _, _, _ => none
  | fuel + 1, fs, sched, attempt =>
    match unlinkSync src fs sched with
    | (.ok fs2, sched2) => some (.ok fs2, sched2)
    | (.error .ebusy, sched2) =>
      if attempt < maxR then unlinkWithRetryRecursive maxR src fuel fs sched2 (attempt + 1)
      else some (.error .ebusy, sched2)
    | (.error e, sched2) => some (.error e, sched2)

/-- Final step of the cross-device fallback: delete the source with the
retry policy and return the destination path. -/
def finalizeUnlink (maxR : Nat) (src : String) (fs : FS) (sched : List FsEv)
    (fuel : Nat) (finalPath : String) :
    Option (FS × List FsEv × Except FsErr String) :=
  match unlinkWithRetryRecursive maxR src fuel fs sched 1 with
  | none => none
  | some (.ok fs2, sched2) => some (fs2, sched2, .ok finalPath)
  | some (.error e, sched2) => some (fs, sched2, .error e)

/-- The rename-to-final-name step of `copyThenUnlinkWithFinalize`: rename
the temporary to `finalPath0`; on `EEXIST` regenerate a unique name and
rename again (an error there propagates without temporary cleanup, as in
the source); any other rename error deletes the temporary and rethrows;
on success delete the source with retries. -/
def renameFinalize (maxR : Nat) (ts suffix src targetDir finalPath0 : String)
    (fs2 : FS) (sched2 : List FsEv) (fuel : Nat) :
    Option (FS × List FsEv × Except FsErr String) :=
  let tp := tempPath targetDir src suffix
  match renameSync tp finalPath0 fs2 sched2 with
  | (.ok fs3, sched3) => finalizeUnlink maxR src fs3 sched3 fuel finalPath0
  | (.error .eexist, sched3) =>
    match generateUniqueTargetPath fs2 targetDir src ts (fuel + 1) with
    | none => none
    | some finalPath1 =>
      match renameSync tp finalPath1 fs2 sched3 with
      | (.ok fs3, sched4) => finalizeUnlink maxR src fs3 sched4 fuel finalPath1
      | (.error e, sched4) => some (fs2, sched4, .error e)
  | (.error e, sched3) =>
    some ({ fs2 with files := removeF fs2.files tp }, sched3, .error e)

/-- The tail of `copyThenUnlinkWithFinalize` after the copy: verify by
size (delete the temporary and fail on mismatch), pick the
(collision-adjusted) final name, then `renameFinalize`. -/
def verifyFinalize (maxR : Nat) (ts suffix src targetDir
    desiredTargetPath : String) (fs2 : FS) (sched2 : List FsEv) (fuel : Nat) :
    Option (FS × List FsEv × Except FsErr String) :=
  let tp := tempPath targetDir src suffix
  match statSizeF fs2 src, statSizeF fs2 tp with
  | some ssize, some tsize =>
    if ssize ≠ tsize then
      some ({ fs2 with files := removeF fs2.files tp }, sched2, .error .verifyFail)
    else
      match (if existsPathB fs2 desiredTargetPath then
          generateUniqueTargetPath fs2 targetDir src ts (fuel + 1)
        else some desiredTargetPath) with
      | none => none
      | some finalPath0 =>
        renameFinalize maxR ts suffix src targetDir finalPath0 fs2 sched2 fuel
  | _, _ => some (fs2, sched2, .error .enoent)

/-- `FileMoveService.copyThenUnlinkWithFinalize`: copy to a unique
temporary file, then verify and finalize (`verifyFinalize`). -/
def copyThenUnlinkWithFinalize (maxR : Nat) (ts suffix src targetDir
    desiredTargetPath : String) (fs : FS) (sched : List FsEv) (fuel : Nat) :
    Option (FS × List FsEv × Except FsErr String) :=
  let tp := tempPath targetDir src suffix
  match cpSync src tp fs sched with
  | (.error e, sched2) => some (fs, sched2, .error e)
  | (.ok fs2, sched2) =>
    verifyFinalize maxR ts suffix src targetDir desiredTargetPath fs2 sched2 fuel

/-- `FileMoveService.attemptMoveRecursive`: rename first; on `EEXIST`
retry with a unique target name (a dispatch kept from the source that is
unreachable under `renameSync`'s real replace-on-collision semantics); on
`EXDEV` fall back to copy-then-unlink; on `ENOENT` treat the move as
already resolved (skipped); on a busy-class error retry with backoff
while `attempt < FILE_MAX_RETRIES`; any other error propagates. -/
def attemptMoveRecursive (maxR : Nat) (ts suffix file targetDir : String) :
    Nat → String → FS → List FsEv → Nat →
    Option (FS × List FsEv × Except FsErr MoveOut)
  | 0, _, _, _, _ => none
  | fuel + 1, desiredTargetPath, fs, sched, attempt =>
    match renameSync file desiredTargetPath fs sched with
    | (.ok fs2, sched2) => some (fs2, sched2, .ok (.moved desiredTargetPath))
    | (.error .eexist, sched2) =>
      match generateUniqueTargetPath fs targetDir file ts (fuel + 1) with
      | none => none
      | some uniquePath =>
        attemptMoveRecursive maxR ts suffix file targetDir fuel uniquePath fs sched2 attempt
    | (.error .exdev, sched2) =>
      match copyThenUnlinkWithFinalize maxR ts suffix file targetDir
          desiredTargetPath fs sched2 fuel with
      | none => none
      | some (fs2, sched3, .ok finalPath) => some (fs2, sched3, .ok (.moved finalPath))
      | some (fs2, sched3, .error e) => some (fs2, sched3, .error e)
    | (.error .enoent, sched2) => some (fs, sched2, .ok .skipped)
    | (.error .ebusy, sched2) =>
      if attempt < maxR then
        attemptMoveRecursive maxR ts suffix file targetDir fuel desiredTargetPath fs sched2
          (attempt + 1)
      else some (fs, sched2, .error .ebusy)
    | (.error e, sched2) => some (fs, sched2, .error e)

/-- `FileMoveService.moveFile`: strip a target-directory tail segment equal
to the file's basename, short-circuit in dry-run mode, otherwise create
the target directory and run the recursive move. -/
def moveFile (dryRun : Bool) (maxR : Nat) (ts suffix file targetDir : String)
    (fs : FS) (sched : List FsEv) (fuel : Nat) :
    Option (FS × List FsEv × Except FsErr MoveOut) :=
  let fileBaseName := jsBasename file
  let targetDirBase := jsBasename targetDir
  let normalizedTargetDir :=
    if targetDirBase = fileBaseName then jsDirname targetDir else targetDir
  if dryRun then some (fs, sched, .ok .dryRun)
  else
    let fs1 := ensureDir fs normalizedTargetDir
    attemptMoveRecursive maxR ts suffix file normalizedTargetDir fuel
      (pathJoin normalizedTargetDir fileBaseName) fs1 sched 1

theorem lookupF_removeF (files : List (String × Content)) (p q : String) :
    lookupF (removeF files p) q = if q = p then none else lookupF files q := by
  induction files with
  | nil => by_cases h : q = p <;> simp [lookupF, removeF, h]
  | cons e rest ih =>
    simp only [removeF]
    by_cases he : e.1 = p
    · rw [if_pos he, ih]
      by_cases h : q = p
      · simp [h]
      · rw [if_neg h]
        have : ¬ e.1 = q := by rw [he]; exact fun hh => h hh.symm
        simp [lookupF, this, if_neg h]
    · rw [if_neg he]
      simp only [lookupF]
      by_cases heq : e.1 = q
      · have h2 : ¬ q = p := by rw [← heq]; exact he
        simp [heq, h2]
      · rw [if_neg heq, ih]
        by_cases h : q = p
        · simp [h]
        · simp [h, if_neg heq]

theorem lookupF_setF (files : List (String × Content)) (p q : String) (c : Content) :
    lookupF (setF files p c) q = if q = p then some c else lookupF files q := by
  unfold setF
  simp only [lookupF]
  by_cases h : q = p
  · subst h
    rw [if_pos rfl, if_pos rfl]
  · rw [if_neg (fun hh : p = q => h hh.symm), if_neg h, lookupF_removeF, if_neg h]

/-- Claim C9: in dry-run mode `moveFile` performs no filesystem mutation at
all — the state (files and directories) and the event schedule are
returned untouched, with a dry-run outcome; in particular the target
directory is not created. -/
theorem claim_C9_dry_run (maxR : Nat) (ts suffix file targetDir : String)
    (fs : FS) (sched : List FsEv) (fuel : Nat) :
    moveFile true maxR ts suffix file targetDir fs sched fuel =
      some (fs, sched, .ok .dryRun) := rfl

/-- Claim C8: when the source file no longer exists at attempt time, the
move returns successfully with the skipped marker — the filesystem and
the schedule are unchanged (no retry is consumed) and no error is
reported. -/
theorem claim_C8_source_vanished (maxR : Nat) (ts suffix file targetDir
    desired : String) (fs : FS) (sched : List FsEv) (fuel attempt : Nat)
    (h : lookupF fs.files file = none) :
    attemptMoveRecursive maxR ts suffix file targetDir (fuel + 1) desired fs
      sched attempt = some (fs, sched, .ok .skipped) := by
  simp only [attemptMoveRecursive, renameSync, h]

/-- Witness for C8 at a concrete state. -/
theorem claim_C8_source_vanished_witness :
    lookupF (FS.mk [("other.txt", [1])] ["d"]).files "in/a.txt" = none ∧
    attemptMoveRecursive 3 "T" "s" "in/a.txt" "d" 5 "d/a.txt"
        (FS.mk [("other.txt", [1])] ["d"]) [.busy] 1 =
      some (FS.mk [("other.txt", [1])] ["d"], [.busy], .ok .skipped) :=
  ⟨by decide,
    claim_C8_source_vanished 3 "T" "s" "in/a.txt" "d" "d/a.txt"
      (FS.mk [("other.txt", [1])] ["d"]) [.busy] 4 1 (by decide)⟩

theorem existsPathB_eq_false (fs : FS) (p : String) :
    existsPathB fs p = false ↔ lookupF fs.files p = none ∧ memB fs.dirs p = false := by
  unfold existsPathB
  cases h : lookupF fs.files p <;> simp [h]

theorem copyThenUnlink_good (maxR : Nat) (ts suffix src targetDir desired : String)
    (fs : FS) (c : Content) (fuel : Nat)
    (h1 : lookupF fs.files src = some c)
    (h2 : existsPathB fs desired = false)
    (h3 : lookupF fs.files (tempPath targetDir src suffix) = none)
    (h5 : tempPath targetDir src suffix ≠ desired)
    (h6 : src ≠ desired) :
    copyThenUnlinkWithFinalize maxR ts suffix src targetDir desired fs [] (fuel + 1) =
      some (⟨removeF (setF (removeF (setF fs.files (tempPath targetDir src suffix) c)
          (tempPath targetDir src suffix)) desired c) src, fs.dirs⟩, [],
        .ok desired) := by
  obtain ⟨hdf, hdd⟩ := (existsPathB_eq_false fs desired).mp h2
  have hstp : src ≠ tempPath targetDir src suffix := fun h => by rw [h, h3] at h1; cases h1
  have e1 : cpSync src (tempPath targetDir src suffix) fs [] =
      (.ok ⟨setF fs.files (tempPath targetDir src suffix) c, fs.dirs⟩, []) := by
    simp [cpSync, h1, popEv]
  have e2 : statSizeF ⟨setF fs.files (tempPath targetDir src suffix) c, fs.dirs⟩ src =
      some c.length := by
    simp [statSizeF, lookupF_setF, if_neg hstp, h1]
  have e3 : statSizeF ⟨setF fs.files (tempPath targetDir src suffix) c, fs.dirs⟩
      (tempPath targetDir src suffix) = some c.length := by
    simp [statSizeF, lookupF_setF]
  have e4 : existsPathB ⟨setF fs.files (tempPath targetDir src suffix) c, fs.dirs⟩
      desired = false := by
    rw [existsPathB_eq_false]
    constructor
    · rw [lookupF_setF, if_neg (fun h : desired = tempPath targetDir src suffix => h5 h.symm)]
      exact hdf
    · exact hdd
  have e5 : renameSync (tempPath targetDir src suffix) desired
      ⟨setF fs.files (tempPath targetDir src suffix) c, fs.dirs⟩ [] =
      (.ok ⟨setF (removeF (setF fs.files (tempPath targetDir src suffix) c)
          (tempPath targetDir src suffix)) desired c, fs.dirs⟩, []) := by
    have hl : lookupF (setF fs.files (tempPath targetDir src suffix) c)
        (tempPath targetDir src suffix) = some c := by
      rw [lookupF_setF, if_pos rfl]
    simp [renameSync, hl, hdd, popEv]
  have hl3 : lookupF (setF (removeF (setF fs.files (tempPath targetDir src suffix) c)
      (tempPath targetDir src suffix)) desired c) src = some c := by
    rw [lookupF_setF, if_neg h6, lookupF_removeF, if_neg hstp, lookupF_setF,
      if_neg hstp]
    exact h1
  have e6 : unlinkWithRetryRecursive maxR src (fuel + 1)
      ⟨setF (removeF (setF fs.files (tempPath targetDir src suffix) c)
        (tempPath targetDir src suffix)) desired c, fs.dirs⟩ [] 1 =
      some (.ok ⟨removeF (setF (removeF (setF fs.files (tempPath targetDir src suffix) c)
        (tempPath targetDir src suffix)) desired c) src, fs.dirs⟩, []) := by
    simp [unlinkWithRetryRecursive, unlinkSync, hl3, popEv]
  have hc1 : ¬ (List.length c ≠ List.length c) := fun h => h rfl
  have hfb : ¬ (false = true) := Bool.false_ne_true
  simp only [copyThenUnlinkWithFinalize, verifyFinalize, renameFinalize, e1, e2, e3, e4,
    if_neg hc1, if_neg hfb, e5, finalizeUnlink, e6]

theorem copyThenUnlink_badSize (maxR : Nat) (ts suffix src targetDir desired : String)
    (fs : FS) (c cb : Content) (fuel : Nat)
    (h1 : lookupF fs.files src = some c)
    (h3 : lookupF fs.files (tempPath targetDir src suffix) = none)
    (hcb : cb.length ≠ c.length) :
    copyThenUnlinkWithFinalize maxR ts suffix src targetDir desired fs
        [.badCopy cb] (fuel + 1) =
      some (⟨removeF (setF fs.files (tempPath targetDir src suffix) cb) 
          (tempPath targetDir src suffix), fs.dirs⟩, [], .error .verifyFail) := by
  have hstp : src ≠ tempPath targetDir src suffix := fun h => by rw [h, h3] at h1; cases h1
  have e1 : cpSync src (tempPath targetDir src suffix) fs [.badCopy cb] =
      (.ok ⟨setF fs.files (tempPath targetDir src suffix) cb, fs.dirs⟩, []) := by
    simp [cpSync, h1, popEv]
  have e2 : statSizeF ⟨setF fs.files (tempPath targetDir src suffix) cb, fs.dirs⟩ src =
      some c.length := by
    simp [statSizeF, lookupF_setF, if_neg hstp, h1]
  have e3 : statSizeF ⟨setF fs.files (tempPath targetDir src suffix) cb, fs.dirs⟩
      (tempPath targetDir src suffix) = some cb.length := by
    simp [statSizeF, lookupF_setF]
  have hc1 : List.length c ≠ List.length cb := fun h => hcb h.symm
  simp only [copyThenUnlinkWithFinalize, verifyFinalize, e1, e2, e3, if_pos hc1]

/-- Claim C3: when the rename fails with a cross-device error, the fallback
copies the source to the unique temporary file, verifies by byte size,
renames the temporary to the final name and deletes the source — the
destination holds byte-identical content, the source and temporary are
gone, and no other file changes; when the size verification fails
(corrupted copy), the temporary file is deleted and the move fails with
the verification error, leaving the filesystem — in particular the
destination path — exactly as before. -/
theorem claim_C3_cross_device_fallback (maxR : Nat)
    (ts suffix src targetDir desired : String)
    (fs : FS) (c cb : Content) (fuel : Nat)
    (h1 : lookupF fs.files src = some c)
    (h2 : existsPathB fs desired = false)
    (h3 : lookupF fs.files (tempPath targetDir src suffix) = none)
    (h5 : tempPath targetDir src suffix ≠ desired)
    (h6 : src ≠ desired)
    (hcb : cb.length ≠ c.length) :
    (attemptMoveRecursive maxR ts suffix src targetDir (fuel + 1 + 1) desired fs
        [.exdev] 1 =
      some (⟨removeF (setF (removeF (setF fs.files (tempPath targetDir src suffix) c)
          (tempPath targetDir src suffix)) desired c) src, fs.dirs⟩, [],
        .ok (.moved desired)) ∧
      lookupF (removeF (setF (removeF (setF fs.files (tempPath targetDir src suffix) c)
          (tempPath targetDir src suffix)) desired c) src) desired = some c ∧
      lookupF (removeF (setF (removeF (setF fs.files (tempPath targetDir src suffix) c)
          (tempPath targetDir src suffix)) desired c) src) src = none ∧
      lookupF (removeF (setF (removeF (setF fs.files (tempPath targetDir src suffix) c)
          (tempPath targetDir src suffix)) desired c) src)
        (tempPath targetDir src suffix) = none ∧
      (∀ q, q ≠ desired → q ≠ src → q ≠ tempPath targetDir src suffix →
        lookupF (removeF (setF (removeF (setF fs.files (tempPath targetDir src suffix) c)
          (tempPath targetDir src suffix)) desired c) src) q = lookupF fs.files q)) ∧
    (attemptMoveRecursive maxR ts suffix src targetDir (fuel + 1 + 1) desired fs
        [.exdev, .badCopy cb] 1 =
      some (⟨removeF (setF fs.files (tempPath targetDir src suffix) cb)
          (tempPath targetDir src suffix), fs.dirs⟩, [], .error .verifyFail) ∧
      (∀ q, lookupF (removeF (setF fs.files (tempPath targetDir src suffix) cb)
          (tempPath targetDir src suffix)) q = lookupF fs.files q)) := by
  have hstp : src ≠ tempPath targetDir src suffix := fun h => by rw [h, h3] at h1; cases h1
  have hdd2 : memB fs.dirs desired = false := ((existsPathB_eq_false fs desired).mp h2).2
  have ev0 : renameSync src desired fs [FsEv.exdev] = (.error .exdev, []) := by
    simp [renameSync, h1, hdd2, popEv]
  have ev0' : renameSync src desired fs [FsEv.exdev, FsEv.badCopy cb] =
      (.error .exdev, [FsEv.badCopy cb]) := by
    simp [renameSync, h1, hdd2, popEv]
  refine ⟨⟨?_, ?_, ?_, ?_, ?_⟩, ⟨?_, ?_⟩⟩
  · simp only [attemptMoveRecursive, ev0,
      copyThenUnlink_good maxR ts suffix src targetDir desired fs c fuel h1 h2 h3 h5 h6]
  · rw [lookupF_removeF, if_neg (fun h : desired = src => h6 h.symm), lookupF_setF,
      if_pos rfl]
  · rw [lookupF_removeF, if_pos rfl]
  · rw [lookupF_removeF, if_neg (fun h => hstp h.symm), lookupF_setF, if_neg h5,
      lookupF_removeF, if_pos rfl]
  · intro q hq1 hq2 hq3
    rw [lookupF_removeF, if_neg hq2, lookupF_setF, if_neg hq1, lookupF_removeF,
      if_neg hq3, lookupF_setF, if_neg hq3]
  · simp only [attemptMoveRecursive, ev0',
      copyThenUnlink_badSize maxR ts suffix src targetDir desired fs c cb fuel h1 h3 hcb]
  · intro q
    by_cases hq : q = tempPath targetDir src suffix
    · rw [lookupF_removeF, if_pos hq, hq, h3]
    · rw [lookupF_removeF, if_neg hq, lookupF_setF, if_neg hq]

/-- Witness for C3 at a concrete filesystem. -/
theorem claim_C3_cross_device_fallback_witness :
    (lookupF (FS.mk [("in/a.txt", [7, 8])] ["root/docs"]).files "in/a.txt" = some [7, 8] ∧
      existsPathB (FS.mk [("in/a.txt", [7, 8])] ["root/docs"]) "root/docs/a.txt" = false ∧
      lookupF (FS.mk [("in/a.txt", [7, 8])] ["root/docs"]).files
        (tempPath "root/docs" "in/a.txt" "s") = none ∧
      tempPath "root/docs" "in/a.txt" "s" ≠ "root/docs/a.txt" ∧
      "in/a.txt" ≠ "root/docs/a.txt" ∧
      ([9] : Content).length ≠ ([7, 8] : Content).length) ∧
    (attemptMoveRecursive 3 "T" "s" "in/a.txt" "root/docs" (1 + 1 + 1)
        "root/docs/a.txt" (FS.mk [("in/a.txt", [7, 8])] ["root/docs"]) [.exdev] 1 =
      some (⟨removeF (setF (removeF (setF (FS.mk [("in/a.txt", [7, 8])] ["root/docs"]).files
          (tempPath "root/docs" "in/a.txt" "s") [7, 8])
          (tempPath "root/docs" "in/a.txt" "s")) "root/docs/a.txt" [7, 8]) "in/a.txt",
          ["root/docs"]⟩, [], .ok (.moved "root/docs/a.txt")) ∧
      lookupF (removeF (setF (removeF (setF (FS.mk [("in/a.txt", [7, 8])] ["root/docs"]).files
          (tempPath "root/docs" "in/a.txt" "s") [7, 8])
          (tempPath "root/docs" "in/a.txt" "s")) "root/docs/a.txt" [7, 8]) "in/a.txt")
        "root/docs/a.txt" = some [7, 8] ∧
      lookupF (removeF (setF (removeF (setF (FS.mk [("in/a.txt", [7, 8])] ["root/docs"]).files
          (tempPath "root/docs" "in/a.txt" "s") [7, 8])
          (tempPath "root/docs" "in/a.txt" "s")) "root/docs/a.txt" [7, 8]) "in/a.txt")
        "in/a.txt" = none ∧
      lookupF (removeF (setF (removeF (setF (FS.mk [("in/a.txt", [7, 8])] ["root/docs"]).files
          (tempPath "root/docs" "in/a.txt" "s") [7, 8])
          (tempPath "root/docs" "in/a.txt" "s")) "root/docs/a.txt" [7, 8]) "in/a.txt")
        (tempPath "root/docs" "in/a.txt" "s") = none ∧
      (∀ q, q ≠ "root/docs/a.txt" → q ≠ "in/a.txt" →
        q ≠ tempPath "root/docs" "in/a.txt" "s" →
        lookupF (removeF (setF (removeF (setF (FS.mk [("in/a.txt", [7, 8])] ["root/docs"]).files
          (tempPath "root/docs" "in/a.txt" "s") [7, 8])
          (tempPath "root/docs" "in/a.txt" "s")) "root/docs/a.txt" [7, 8]) "in/a.txt") q =
          lookupF (FS.mk [("in/a.txt", [7, 8])] ["root/docs"]).files q)) :=
  ⟨⟨by decide, by decide, by decide, by decide, by decide, by decide⟩,
    (claim_C3_cross_device_fallback 3 "T" "s" "in/a.txt" "root/docs" "root/docs/a.txt"
      (FS.mk [("in/a.txt", [7, 8])] ["root/docs"]) [7, 8] [9] 1
      (by decide) (by decide) (by decide) (by decide) (by decide) (by decide)).1⟩

instance exceptDecEq {e a : Type} [DecidableEq e] [DecidableEq a] :
    DecidableEq (Except e a)
  | .ok x, .ok y =>
    if h : x = y then isTrue (by rw [h])
    else isFalse (by intro hh; cases hh; exact h rfl)
  | .ok _, .error _ => isFalse (by intro h; cases h)
  | .error _, .ok _ => isFalse (by intro h; cases h)
  | .error x, .error y =>
    if h : x = y then isTrue (by rw [h])
    else isFalse (by intro hh; cases hh; exact h rfl)

/-- Claim C2 (code bug): moving a file whose target path already names an
existing file overwrites it.  `fs.renameSync` silently replaces an
existing destination file, so the very first rename succeeds at the
occupied path: starting from a filesystem where the destination
`root/docs/a.txt` holds `[2]`, the move completes at that same occupied
path, the pre-existing bytes `[2]` are destroyed and replaced by the
source's bytes `[1]`, and no unique name is ever generated — the
`EEXIST` dispatch and `generateUniqueTargetPath` collision machinery in
the source, whose presence shows the claim is the intended behavior,
never run. -/
theorem claim_C2_overwrite_bug :
    moveFile false 3 "T" "s" "in/a.txt" "root/docs"
        (FS.mk [("in/a.txt", [1]), ("root/docs/a.txt", [2])] ["root/docs"]) [] 5 =
      some (FS.mk [("root/docs/a.txt", [1])] ["root/docs"], [],
        .ok (.moved "root/docs/a.txt")) ∧
    existsPathB (FS.mk [("in/a.txt", [1]), ("root/docs/a.txt", [2])] ["root/docs"])
      "root/docs/a.txt" = true ∧
    lookupF (FS.mk [("in/a.txt", [1]), ("root/docs/a.txt", [2])] ["root/docs"]).files
      "root/docs/a.txt" = some [2] ∧
    lookupF (FS.mk [("root/docs/a.txt", [1])] ["root/docs"]).files
      "root/docs/a.txt" = some [1] := by
  refine ⟨by decide, by decide, by decide, by decide⟩
